import Mathlib

/-!
Formal model of the momentum-mcp-server OAuth authorization core.

The Go sources under `internal/auth` (tokens.go, oauth.go, ratelimit.go,
middleware, persistence) are shallowly embedded as pure Lean functions:
in-memory maps become functions `String → Option _`, `time.Time` becomes
`Int` (only ordering is ever used: `After` is `>`, `Before` is `<`), and
each mutating method becomes a state-passing function returning its result
together with the updated store.  Randomly generated values (tokens,
authorization codes) are passed in as explicit arguments, modelling the
successful path of `generateSecureToken`.
-/

/-- Finite-map model of a Go `map[string]V`. -/
def mapInsert {α : Type} (m : String → Option α) (k : String) (v : α) :
    String → Option α :=
  fun t => if t = k then some v else m t

/-- Deletion from a Go `map[string]V` (`delete(m, k)`). -/
def mapDelete {α : Type} (m : String → Option α) (k : String) :
    String → Option α :=
  fun t => if t = k then none else m t

/-- `TokenType` from tokens.go: access or refresh. -/
inductive TokenType where
  | access
  | refresh
deriving DecidableEq, Repr

/-- `TokenInfo` from tokens.go: metadata about one issued token.
`refreshTokenID` links an access token to the refresh token that produced
it (empty for refresh tokens). -/
structure TokenInfo where
  token : String
  type : TokenType
  clientID : String
  expiresAt : Int
  createdAt : Int
  refreshTokenID : String
deriving DecidableEq, Repr

/-- `TokenStore` from tokens.go: in-memory token registry keyed by token
value, plus the two configured TTLs. -/
structure TokenStore where
  tokens : String → Option TokenInfo
  accessTokenTTL : Int
  refreshTokenTTL : Int

/-- `TokenStore.ValidateToken` (tokens.go:102-124).  Looks the token up;
returns `none` when the token is unknown, the kind mismatches, or the
token is expired (`time.Now().After(info.ExpiresAt)`, i.e. `now >
expiresAt`).  Only in the expired case is the record deleted; the checks
run in exactly the source's order (existence, then kind, then expiry). -/
def TokenStore.validateToken (s : TokenStore) (token : String)
    (expectedType : TokenType) (now : Int) :
    Option TokenInfo × TokenStore :=
  match s.tokens token with
  | none => (none, s)
  | some info =>
    if info.type ≠ expectedType then (none, s)
    else if now > info.expiresAt then
      (none, { s with tokens := mapDelete s.tokens token })
    else (some info, s)

/-- `TokenStore.RevokeToken` (tokens.go:137-141): unconditional removal. -/
def TokenStore.revokeToken (s : TokenStore) (token : String) : TokenStore :=
  { s with tokens := mapDelete s.tokens token }

/-- `TokenStore.RevokeRefreshTokenAndAccessTokens` (tokens.go:145-158):
removes the refresh record itself and every record whose `RefreshTokenID`
equals the revoked refresh token. -/
def TokenStore.revokeRefreshTokenAndAccessTokens (s : TokenStore)
    (refreshToken : String) : TokenStore :=
  { s with tokens := fun t =>
      match s.tokens t with
      | none => none
      | some info =>
        if t = refreshToken ∨ info.refreshTokenID = refreshToken then none
        else some info }

/-- `TokenStore.GenerateAccessToken` (tokens.go:56-76), success path: the
freshly generated random token is the `token` argument.  Inserts an
access record expiring at `now + accessTokenTTL`. -/
def TokenStore.generateAccessToken (s : TokenStore)
    (clientID refreshTokenID : String) (token : String) (now : Int) :
    String × Int × TokenStore :=
  let expiresAt := now + s.accessTokenTTL
  (token, expiresAt,
    { s with tokens := (mapInsert s.tokens token
        ⟨token, .access, clientID, expiresAt, now, refreshTokenID⟩) })

/-- `TokenStore.GenerateRefreshToken` (tokens.go:79-98), success path.
Inserts a refresh record expiring at `now + refreshTokenTTL` with an
empty `refreshTokenID`. -/
def TokenStore.generateRefreshToken (s : TokenStore) (clientID : String)
    (token : String) (now : Int) : String × Int × TokenStore :=
  let expiresAt := now + s.refreshTokenTTL
  (token, expiresAt,
    { s with tokens := (mapInsert s.tokens token
        ⟨token, .refresh, clientID, expiresAt, now, ""⟩) })

/-- One tick of the background sweep `cleanupExpired` (tokens.go:161-173):
deletes every record with `now.After(info.ExpiresAt)`. -/
def TokenStore.cleanupExpiredStep (s : TokenStore) (now : Int) :
    TokenStore :=
  { s with tokens := fun t =>
      match s.tokens t with
      | none => none
      | some info => if now > info.expiresAt then none else some info }

/-- Concrete store for the C9 counterexample: one refresh token `"r1"`
that expired at instant 10. -/
def c9Store : TokenStore :=
  ⟨mapInsert (fun _ => none) "r1" ⟨"r1", .refresh, "client", 10, 0, ""⟩,
    3600, 604800⟩

/-- `AuthCode` from oauth.go:85-93: an authorization code bound to a
client, redirect URI and PKCE challenge, with a used flag. -/
structure AuthCode where
  code : String
  clientID : String
  redirectURI : String
  codeChallenge : String
  codeChallengeMethod : String
  expiresAt : Int
  used : Bool
deriving DecidableEq, Repr

/-- `AuthCodeStore` from oauth.go:96-99: codes keyed by code value. -/
structure AuthCodeStore where
  codes : String → Option AuthCode

/-- `AuthCodeStore.Store` (oauth.go:111-115): insert, last write wins. -/
def AuthCodeStore.store (s : AuthCodeStore) (ac : AuthCode) : AuthCodeStore :=
  ⟨mapInsert s.codes ac.code ac⟩

/-- `AuthCodeStore.Get` (oauth.go:119-129): returns `none` and leaves the
store untouched when the code is missing, already used, or expired
(`time.Now().After(ac.ExpiresAt)`, i.e. `now > expiresAt`); otherwise
marks the record used (the Go code mutates the stored record through the
pointer) and returns it. -/
def AuthCodeStore.get (s : AuthCodeStore) (code : String) (now : Int) :
    Option AuthCode × AuthCodeStore :=
  match s.codes code with
  | none => (none, s)
  | some ac =>
    if ac.used ∨ now > ac.expiresAt then (none, s)
    else
      let ac' := { ac with used := true }
      (some ac', ⟨mapInsert s.codes code ac'⟩)

/-- One tick of the auth code sweep (oauth.go:131-143): deletes codes that
are expired or used. -/
def AuthCodeStore.cleanupExpiredStep (s : AuthCodeStore) (now : Int) :
    AuthCodeStore :=
  ⟨fun c =>
    match s.codes c with
    | none => none
    | some ac => if now > ac.expiresAt ∨ ac.used then none else some ac⟩

/-- Concrete stores for the C3 boundary counterexample: a token and an
authorization code both expiring exactly at instant 100. -/
def c3TokenStore : TokenStore :=
  ⟨mapInsert (fun _ => none) "t1" ⟨"t1", .access, "client", 100, 0, "r"⟩,
    3600, 604800⟩

/-- Authorization-code store for the C3 boundary counterexample. -/
def c3CodeStore : AuthCodeStore :=
  ⟨mapInsert (fun _ => none) "c1"
    ⟨"c1", "client", "https://cb", "ch", "S256", 100, false⟩⟩

/-- Result of `POST /token` (oauth.go): either a successful token response
(access token, refresh token, expires_in seconds) or an OAuth error with
code and description. -/
inductive TokenResponse where
  | success (accessToken refreshToken : String) (expiresIn : Int)
  | error (code description : String)
deriving DecidableEq, Repr

/-- `issueTokens` (oauth.go:452-483), success path: generates the refresh
token first, then an access token linked to it, and reports `expires_in`
as the seconds until the access token's expiry.  The two fresh random
token values are the `newRefresh`/`newAccess` arguments. -/
def issueTokens (s : TokenStore) (clientID : String) (now : Int)
    (newRefresh newAccess : String) : TokenResponse × TokenStore :=
  let (refreshTok, _, s₁) := s.generateRefreshToken clientID newRefresh now
  let (accessTok, expiresAt, s₂) :=
    s₁.generateAccessToken clientID refreshTok newAccess now
  (.success accessTok refreshTok (expiresAt - now), s₂)

/-- `handleRefreshTokenGrant` (oauth.go:422-450): requires
`refresh_token`; validates it as a refresh token; checks `client_id` only
when supplied; then revokes the old refresh token with the plain
`RevokeToken` (NOT the cascade) and issues a fresh pair. -/
def handleRefreshTokenGrant (s : TokenStore)
    (refreshToken clientID : String) (now : Int)
    (newRefresh newAccess : String) : TokenResponse × TokenStore :=
  if refreshToken = "" then
    (.error "invalid_request" "Missing refresh_token", s)
  else
    match s.validateToken refreshToken .refresh now with
    | (none, s₁) =>
      (.error "invalid_grant" "Invalid or expired refresh token", s₁)
    | (some info, s₁) =>
      if clientID ≠ "" ∧ info.clientID ≠ clientID then
        (.error "invalid_grant" "Client ID mismatch", s₁)
      else
        issueTokens (s₁.revokeToken refreshToken) info.clientID now
          newRefresh newAccess

/-- Store for the C1 failing input: a valid refresh token `"R"` and a
valid access token `"A"` whose `refreshTokenID` is `"R"`. -/
def c1Store : TokenStore :=
  ⟨mapInsert (mapInsert (fun _ => none)
      "R" ⟨"R", .refresh, "c", 1000, 0, ""⟩)
      "A" ⟨"A", .access, "c", 500, 0, "R"⟩,
    3600, 604800⟩

/-- `ClientInfo` from oauth.go:146-151: a registered OAuth client. -/
structure ClientInfo where
  clientID : String
  clientName : String
  redirectURIs : List String
  createdAt : Int
deriving DecidableEq, Repr

/-- `ClientStore` from oauth.go:154-157: clients keyed by client ID. -/
structure ClientStore where
  clients : String → Option ClientInfo

/-- `ClientStore.Register` (oauth.go:184-188): insert or overwrite. -/
def ClientStore.register (s : ClientStore) (c : ClientInfo) : ClientStore :=
  ⟨mapInsert s.clients c.clientID c⟩

/-- `ClientStore.Get` (oauth.go:191-195). -/
def ClientStore.getClient (s : ClientStore) (clientID : String) :
    Option ClientInfo :=
  s.clients clientID

/-- `ClientStore.ValidateRedirectURI` (oauth.go:198-209): true iff the
client exists and the URI is an exact member of its registered list. -/
def ClientStore.validateRedirectURI (s : ClientStore)
    (clientID redirectURI : String) : Bool :=
  match s.clients clientID with
  | none => false
  | some c => c.redirectURIs.contains redirectURI

/-- The seeded `claude-ai` client from `RegisterDefaultClients`
(oauth.go:170-181); `now` is the construction time. -/
def defaultClient (now : Int) : ClientInfo :=
  ⟨"claude-ai", "Claude.ai",
    ["https://claude.ai/api/mcp/auth_callback",
     "https://www.claude.ai/api/mcp/auth_callback"], now⟩

/-- `NewClientStore` (oauth.go:160-167): empty store with the default
client pre-registered. -/
def newClientStore (now : Int) : ClientStore :=
  ClientStore.register ⟨fun _ => none⟩ (defaultClient now)

/-- Response of the `/authorize` endpoint handlers: a 302 redirect to a
URL, or a (re-)rendered consent page carrying an error message. -/
inductive AuthorizeResponse where
  | redirectTo (url : String)
  | renderPage (errorMsg : String)
deriving DecidableEq, Repr

/-- `issueAuthorizationCode` (oauth.go:298-324), success path (the fresh
random code is the `code` argument): stores the code bound to the client,
redirect URI and PKCE challenge with a 5-minute (300 s) expiry, then
redirects to `redirectURI?code=...` with `state` appended if present. -/
def issueAuthorizationCode (authCodes : AuthCodeStore)
    (clientID redirectURI state codeChallenge codeChallengeMethod : String)
    (code : String) (now : Int) : AuthorizeResponse × AuthCodeStore :=
  let redirectURL := redirectURI ++ "?code=" ++ code ++
    (if state ≠ "" then "&state=" ++ state else "")
  (.redirectTo redirectURL,
    authCodes.store
      ⟨code, clientID, redirectURI, codeChallenge, codeChallengeMethod,
        now + 300, false⟩)

/-- `authorizePost` (oauth.go:264-296): reads the form fields; a
`deny` action redirects back with `access_denied`; with a configured PIN a
mismatch (constant-time compare, i.e. string equality) re-renders the
consent page; otherwise an authorization code is issued.  The handler
never consults the client store. -/
def authorizePost (authorizePin : String) (authCodes : AuthCodeStore)
    (pin clientID redirectURI state codeChallenge codeChallengeMethod
      action : String) (code : String) (now : Int) :
    AuthorizeResponse × AuthCodeStore :=
  if action = "deny" then
    (.redirectTo (redirectURI ++
        "?error=access_denied&error_description=User denied the request" ++
        (if state ≠ "" then "&state=" ++ state else "")),
      authCodes)
  else if authorizePin ≠ "" ∧ pin ≠ authorizePin then
    (.renderPage "Invalid PIN", authCodes)
  else
    issueAuthorizationCode authCodes clientID redirectURI state
      codeChallenge codeChallengeMethod code now

/-- `PersistentData` from the persistence file: the on-disk snapshot
shape (tokens, clients, savedAt).  The JSON encode/decode and the
temp-file-plus-rename write are I/O and are modelled as the identity on
this value. -/
structure PersistentData where
  tokens : String → Option TokenInfo
  clients : String → Option ClientInfo
  savedAt : Int

/-- `Persistence.Save` (gathering step): snapshots only the non-expired
tokens (`now.Before(info.ExpiresAt)`, i.e. `now < expiresAt`) and all
clients. -/
def persistenceSave (ts : TokenStore) (cs : ClientStore) (now : Int) :
    PersistentData :=
  ⟨fun t =>
      match ts.tokens t with
      | none => none
      | some info => if now < info.expiresAt then some info else none,
    cs.clients, now⟩

/-- `Persistence.Load`: inserts every persisted token that is still
non-expired at load time into the token store, and every persisted client
except the seeded `claude-ai` ID into the client store. -/
def persistenceLoad (pd : PersistentData) (ts : TokenStore)
    (cs : ClientStore) (now : Int) : TokenStore × ClientStore :=
  ({ ts with tokens := fun t =>
      match pd.tokens t with
      | some info =>
        if now < info.expiresAt then some info else ts.tokens t
      | none => ts.tokens t },
   ⟨fun id =>
      if id = "claude-ai" then cs.clients id
      else
        match pd.clients id with
        | some c => some c
        | none => cs.clients id⟩)

/-- `RateLimiter` from ratelimit.go:13-18: per-address timestamp lists,
the admission limit, and the sliding-window length. -/
structure RateLimiter where
  requests : String → List Int
  limit : Nat
  window : Int

/-- `RateLimiter.Allow` (ratelimit.go:33-55): keeps only the timestamps
strictly after `now - window` (`t.After(cutoff)`), refuses when at least
`limit` remain (storing the pruned list), and otherwise admits, appending
`now`. -/
def RateLimiter.allow (rl : RateLimiter) (ip : String) (now : Int) :
    Bool × RateLimiter :=
  let cutoff := now - rl.window
  let recent := (rl.requests ip).filter (fun t => t > cutoff)
  if recent.length ≥ rl.limit then
    (false, { rl with requests := fun i =>
        if i = ip then recent else rl.requests i })
  else
    (true, { rl with requests := fun i =>
        if i = ip then recent ++ [now] else rl.requests i })

/-- Follows the claim's words, for comparison with `RateLimiter.allow`:
"each call prunes that address's timestamps older than `now - window`",
i.e. keeps every timestamp `t ≥ now - window`, then admits iff the
remaining count is below the limit. -/
def RateLimiter.allowClaimed (rl : RateLimiter) (ip : String) (now : Int) :
    Bool × RateLimiter :=
  let cutoff := now - rl.window
  let recent := (rl.requests ip).filter (fun t => t ≥ cutoff)
  if recent.length ≥ rl.limit then
    (false, { rl with requests := fun i =>
        if i = ip then recent else rl.requests i })
  else
    (true, { rl with requests := fun i =>
        if i = ip then recent ++ [now] else rl.requests i })

/-- Runs `allow` once per entry of `times`, collecting the results. -/
def runAllow (rl : RateLimiter) (ip : String) : List Int →
    List Bool × RateLimiter
  | [] => ([], rl)
  | t :: ts =>
    let (b, rl') := rl.allow ip t
    let (bs, rl'') := runAllow rl' ip ts
    (b :: bs, rl'')

/-- The strings of the bearer middleware (part_006) are modelled as
character lists so that the `Bearer ` prefix handling is structural.
`bearerSplit` is `strings.HasPrefix(h, "Bearer ")` followed by
`strings.TrimPrefix(h, "Bearer ")`: `some rest` exactly when the header
is `"Bearer " + rest`. -/
def bearerSplit : List Char → Option (List Char)
  | 'B' :: 'e' :: 'a' :: 'r' :: 'e' :: 'r' :: ' ' :: rest => some rest
  | _ => none

/-- `MultiValidator.ValidateToken` (part_006:47-54): true iff any
validator in the list accepts the token. -/
def multiValidate (validators : List (List Char → Bool))
    (token : List Char) : Bool :=
  validators.any (fun v => v token)

/-- `writeUnauthorized` (part_006:105-117): the `WWW-Authenticate` header
value of a 401 response — `Bearer`, with the resource metadata URL when
configured, and the error description when present. -/
def writeUnauthorized (resourceMetadataURL errorDesc : List Char) :
    List Char :=
  let wwwAuth :=
    if resourceMetadataURL ≠ [] then
      ("Bearer resource_metadata=".toList ++ ['"'] ++ resourceMetadataURL
        ++ ['"'])
    else "Bearer".toList
  if errorDesc ≠ [] then
    wwwAuth ++ (", error=".toList ++ ['"'] ++ "invalid_token".toList
      ++ ['"'] ++ ", error_description=".toList ++ ['"'] ++ errorDesc
      ++ ['"'])
  else wwwAuth

/-- Outcome of the bearer middleware for one request: the request is
passed on (carrying the validated token), or answered 401 with the given
`WWW-Authenticate` value. -/
inductive MWResult where
  | ok (token : List Char)
  | unauthorized (wwwAuthenticate : List Char)
deriving DecidableEq

/-- `Middleware` (part_006:80-102): requires an `Authorization` header of
the form `Bearer <token>` (a missing header reads as the empty string and
fails the prefix test), then requires the configured validator to accept
the token; otherwise responds 401 via `writeUnauthorized`. -/
def middleware (validators : List (List Char → Bool))
    (resourceMetadataURL : List Char) (authHeader : List Char) : MWResult :=
  match bearerSplit authHeader with
  | none =>
    .unauthorized (writeUnauthorized resourceMetadataURL
      "missing or invalid authorization header".toList)
  | some token =>
    if multiValidate validators token then .ok token
    else
      .unauthorized (writeUnauthorized resourceMetadataURL
        "invalid token".toList)

/-- The header value `"Bearer " ++ token`. -/
def bearerHeader (token : List Char) : List Char :=
  'B' :: 'e' :: 'a' :: 'r' :: 'e' :: 'r' :: ' ' :: token

/-- A `WWW-Authenticate` value beginning with `Bearer`. -/
def beginsWithBearer (l : List Char) : Prop :=
  ∃ rest, l = 'B' :: 'e' :: 'a' :: 'r' :: 'e' :: 'r' :: rest

/-- Word size of the SHA-256 state: 2^32.  `validatePKCE`
(oauth.go:578-583) computes `sha256.Sum256([]byte(verifier))`; the Go
standard library's SHA-256 (FIPS 180-4) is embedded below over byte
lists, with 32-bit words as `Nat` reduced modulo `w32`. -/
def w32 : Nat := 4294967296

/-- Right rotation of a 32-bit word (x < 2^32). -/
def rotr32 (n x : Nat) : Nat := (x >>> n) + (x % (2 ^ n)) * (2 ^ (32 - n))

/-- FIPS 180-4 sigma0 (message schedule). -/
def smallSigma0 (x : Nat) : Nat :=
  (rotr32 7 x) ^^^ (rotr32 18 x) ^^^ (x >>> 3)

/-- FIPS 180-4 sigma1 (message schedule). -/
def smallSigma1 (x : Nat) : Nat :=
  (rotr32 17 x) ^^^ (rotr32 19 x) ^^^ (x >>> 10)

/-- FIPS 180-4 Sigma0 (compression). -/
def bigSigma0 (x : Nat) : Nat :=
  (rotr32 2 x) ^^^ (rotr32 13 x) ^^^ (rotr32 22 x)

/-- FIPS 180-4 Sigma1 (compression). -/
def bigSigma1 (x : Nat) : Nat :=
  (rotr32 6 x) ^^^ (rotr32 11 x) ^^^ (rotr32 25 x)

/-- FIPS 180-4 Ch; the complement of a 32-bit word x is 2^32 - 1 - x. -/
def chFn (x y z : Nat) : Nat := (x &&& y) ^^^ ((4294967295 - x) &&& z)

/-- FIPS 180-4 Maj. -/
def majFn (x y z : Nat) : Nat := (x &&& y) ^^^ (x &&& z) ^^^ (y &&& z)

/-- The 64 SHA-256 round constants. -/
def sha256K : List Nat :=
  [1116352408, 1899447441, 3049323471, 3921009573, 961987163, 1508970993,
   2453635748, 2870763221, 3624381080, 310598401, 607225278, 1426881987,
   1925078388, 2162078206, 2614888103, 3248222580, 3835390401, 4022224774,
   264347078, 604807628, 770255983, 1249150122, 1555081692, 1996064986,
   2554220882, 2821834349, 2952996808, 3210313671, 3336571891, 3584528711,
   113926993, 338241895, 666307205, 773529912, 1294757372, 1396182291,
   1695183700, 1986661051, 2177026350, 2456956037, 2730485921, 2820302411,
   3259730800, 3345764771, 3516065817, 3600352804, 4094571909, 275423344,
   430227734, 506948616, 659060556, 883997877, 958139571, 1322822218,
   1537002063, 1747873779, 1955562222, 2024104815, 2227730452, 2361852424,
   2428436474, 2756734187, 3204031479, 3329325298]

/-- The eight 32-bit working variables of SHA-256. -/
@[ext]
structure Sha256State where
  a : Nat
  b : Nat
  c : Nat
  d : Nat
  e : Nat
  f : Nat
  g : Nat
  h : Nat
deriving DecidableEq, Repr

/-- SHA-256 initial hash value. -/
def sha256InitH : Sha256State :=
  ⟨1779033703, 3144134277, 1013904242, 2773480762,
   1359893119, 2600822924, 528734635, 1541459225⟩

/-- One SHA-256 round with the pre-added constant-plus-schedule word. -/
def sha256Round (st : Sha256State) (kw : Nat) : Sha256State :=
  let t1 := (st.h + bigSigma1 st.e + chFn st.e st.f st.g + kw) % w32
  let t2 := (bigSigma0 st.a + majFn st.a st.b st.c) % w32
  ⟨(t1 + t2) % w32, st.a, st.b, st.c, (st.d + t1) % w32, st.e, st.f, st.g⟩

/-- Big-endian grouping of bytes into 32-bit words. -/
def bytesToWords : List Nat → List Nat
  | b0 :: b1 :: b2 :: b3 :: rest =>
    (b0 * 16777216 + b1 * 65536 + b2 * 256 + b3) % w32 :: bytesToWords rest
  | _ => []

/-- Extends the 16-word schedule by the given number of words (48 for a
full block). -/
def scheduleExtend : Nat → Array Nat → Array Nat
  | 0, ws => ws
  | n + 1, ws =>
    let i := ws.size
    let newWord := (smallSigma1 (ws.getD (i - 2) 0) + ws.getD (i - 7) 0 +
      smallSigma0 (ws.getD (i - 15) 0) + ws.getD (i - 16) 0) % w32
    scheduleExtend n (ws.push newWord)

/-- Adds two SHA-256 states word-wise modulo 2^32. -/
def addState (x y : Sha256State) : Sha256State :=
  ⟨(x.a + y.a) % w32, (x.b + y.b) % w32, (x.c + y.c) % w32,
   (x.d + y.d) % w32, (x.e + y.e) % w32, (x.f + y.f) % w32,
   (x.g + y.g) % w32, (x.h + y.h) % w32⟩

/-- Compression of one 64-byte block: 64 rounds, then the feed-forward
addition of the incoming state. -/
def sha256Compress (st : Sha256State) (block : List Nat) : Sha256State :=
  let ws := (scheduleExtend 48 (bytesToWords block).toArray).toList
  let kws := List.zipWith (fun k w => k + w) sha256K ws
  addState st (kws.foldl sha256Round st)

/-- The eight big-endian bytes of the 64-bit message bit length. -/
def lenBytes (n : Nat) : List Nat :=
  [n / 72057594037927936 % 256, n / 281474976710656 % 256,
   n / 1099511627776 % 256, n / 4294967296 % 256, n / 16777216 % 256,
   n / 65536 % 256, n / 256 % 256, n % 256]

/-- FIPS 180-4 padding: a 128 byte, zeros to 56 mod 64, then the bit
length; the zero count (119 - L mod 64) mod 64 makes the total a
multiple of 64. -/
def padMessage (msg : List Nat) : List Nat :=
  let padZeros := (119 - (msg.length % 64)) % 64
  msg ++ [128] ++ List.replicate padZeros 0 ++ lenBytes (8 * msg.length)

/-- Fueled 64-byte chunking (the fuel is an upper bound on the number of
blocks; structural recursion keeps it kernel-evaluable). -/
def toBlocksGo : Nat → List Nat → List (List Nat)
  | 0, _ => []
  | _ + 1, [] => []
  | n + 1, x :: rest =>
    (x :: rest).take 64 :: toBlocksGo n ((x :: rest).drop 64)

/-- Splits a padded message into 64-byte blocks. -/
def toBlocks (l : List Nat) : List (List Nat) := toBlocksGo l.length l

/-- The SHA-256 state after absorbing the whole padded message. -/
def sha256Words (msg : List Nat) : Sha256State :=
  (toBlocks (padMessage msg)).foldl sha256Compress sha256InitH

/-- The four big-endian bytes of a 32-bit word. -/
def wordBytes (w : Nat) : List Nat :=
  [w / 16777216 % 256, w / 65536 % 256, w / 256 % 256, w % 256]

/-- The 32-byte digest of a final state. -/
def digestBytes (d : Sha256State) : List Nat :=
  wordBytes d.a ++ wordBytes d.b ++ wordBytes d.c ++ wordBytes d.d ++
  wordBytes d.e ++ wordBytes d.f ++ wordBytes d.g ++ wordBytes d.h

/-- `sha256.Sum256` over a byte list (a Go string is its byte sequence). -/
def sha256 (msg : List Nat) : List Nat := digestBytes (sha256Words msg)

/-- The byte codes of Go's `base64.URLEncoding` alphabet. -/
def b64AlphabetCodes : List Nat :=
  "ABCDEFGHIJKLMNOPQRSTUVWXYZabcdefghijklmnopqrstuvwxyz0123456789-_".toList.map
    Char.toNat

/-- The alphabet byte for a 6-bit value. -/
def b64Code (n : Nat) : Nat := b64AlphabetCodes.getD n 0

/-- Go's `base64.RawURLEncoding.EncodeToString`: URL-safe alphabet, no
padding, as a byte list. -/
def b64urlEncode : List Nat → List Nat
  | [] => []
  | [b0] => [b64Code (b0 / 4), b64Code (b0 % 4 * 16)]
  | [b0, b1] =>
    [b64Code (b0 / 4), b64Code (b0 % 4 * 16 + b1 / 16), b64Code (b1 % 16 * 4)]
  | b0 :: b1 :: b2 :: rest =>
    b64Code (b0 / 4) :: b64Code (b0 % 4 * 16 + b1 / 16) ::
    b64Code (b1 % 16 * 4 + b2 / 64) :: b64Code (b2 % 64) :: b64urlEncode rest

/-- The UTF-8 bytes of a string (all test strings here are ASCII). -/
def strBytes (s : String) : List Nat := s.toList.map Char.toNat

/-- `validatePKCE` (oauth.go:578-583): SHA-256 the verifier bytes,
base64url-encode without padding, and compare to the stored challenge;
`subtle.ConstantTimeCompare(a, b) == 1` is exactly byte-list equality. -/
def validatePKCE (verifier challenge : List Nat) : Bool :=
  if b64urlEncode (sha256 verifier) = challenge then true else false

/-- All eight state words are below 2^32. -/
def stBounded (st : Sha256State) : Prop :=
  st.a < w32 ∧ st.b < w32 ∧ st.c < w32 ∧ st.d < w32 ∧
  st.e < w32 ∧ st.f < w32 ∧ st.g < w32 ∧ st.h < w32

/-- The digest packed into a tuple over the finite type `Fin w32`; the
words are reduced mod `w32` (a no-op, by `sha256Words_bounded`) so the
definition stands alone. -/
def digestFin (msg : List Nat) :
    Fin w32 × Fin w32 × Fin w32 × Fin w32 ×
    Fin w32 × Fin w32 × Fin w32 × Fin w32 :=
  (⟨(sha256Words msg).a % w32, Nat.mod_lt _ (by decide)⟩,
   ⟨(sha256Words msg).b % w32, Nat.mod_lt _ (by decide)⟩,
   ⟨(sha256Words msg).c % w32, Nat.mod_lt _ (by decide)⟩,
   ⟨(sha256Words msg).d % w32, Nat.mod_lt _ (by decide)⟩,
   ⟨(sha256Words msg).e % w32, Nat.mod_lt _ (by decide)⟩,
   ⟨(sha256Words msg).f % w32, Nat.mod_lt _ (by decide)⟩,
   ⟨(sha256Words msg).g % w32, Nat.mod_lt _ (by decide)⟩,
   ⟨(sha256Words msg).h % w32, Nat.mod_lt _ (by decide)⟩)

/-- C5: after `revokeRefreshCascade(R)` every access token linked to `R`
and `R` itself validate as absent, while records other than `R` whose
`refreshTokenID` differs from `R` remain in the store untouched. -/
theorem revokeRefreshCascade_spec (s : TokenStore) (r a : String)
    (info : TokenInfo) (now : Int)
    (ha : s.tokens a = some info) (hlink : info.refreshTokenID = r) :
    ((s.revokeRefreshTokenAndAccessTokens r).validateToken a .access now).fst
        = none ∧
    ((s.revokeRefreshTokenAndAccessTokens r).validateToken r .refresh now).fst
        = none ∧
    (∀ t it, t ≠ r → it.refreshTokenID ≠ r → s.tokens t = some it →
      (s.revokeRefreshTokenAndAccessTokens r).tokens t = some it) := by
  refine ⟨?_, ?_, ?_⟩
  · simp only [TokenStore.validateToken, TokenStore.revokeRefreshTokenAndAccessTokens, ha,
      hlink]
    simp
  · simp only [TokenStore.validateToken, TokenStore.revokeRefreshTokenAndAccessTokens]
    cases h : s.tokens r with
    | none => simp
    | some i => simp
  · intro t it ht hit hmem
    simp only [TokenStore.revokeRefreshTokenAndAccessTokens, hmem]
    simp [ht, hit]

/-- C5 witness: a concrete store with refresh token `"R"`, a linked access
token `"A"`, and an unrelated access token `"B"`; the cascade removes the
first two and keeps the third. -/
theorem revokeRefreshCascade_spec_witness :
    (((⟨mapInsert (mapInsert (mapInsert (fun _ => none)
        "R" ⟨"R", .refresh, "c", 1000, 0, ""⟩)
        "A" ⟨"A", .access, "c", 500, 0, "R"⟩)
        "B" ⟨"B", .access, "c", 500, 0, "R2"⟩, 3600, 604800⟩ :
        TokenStore).revokeRefreshTokenAndAccessTokens "R").validateToken
        "A" .access 0).fst = none ∧
    ((⟨mapInsert (mapInsert (mapInsert (fun _ => none)
        "R" ⟨"R", .refresh, "c", 1000, 0, ""⟩)
        "A" ⟨"A", .access, "c", 500, 0, "R"⟩)
        "B" ⟨"B", .access, "c", 500, 0, "R2"⟩, 3600, 604800⟩ :
        TokenStore).revokeRefreshTokenAndAccessTokens "R").tokens "B"
        = some ⟨"B", .access, "c", 500, 0, "R2"⟩ := by
  have h := revokeRefreshCascade_spec
    (⟨mapInsert (mapInsert (mapInsert (fun _ => none)
        "R" ⟨"R", .refresh, "c", 1000, 0, ""⟩)
        "A" ⟨"A", .access, "c", 500, 0, "R"⟩)
        "B" ⟨"B", .access, "c", 500, 0, "R2"⟩, 3600, 604800⟩ : TokenStore)
    "R" "A" ⟨"A", .access, "c", 500, 0, "R"⟩ 0 (by decide) (by decide)
  exact ⟨h.1, h.2.2 "B" ⟨"B", .access, "c", 500, 0, "R2"⟩
    (by decide) (by decide) (by decide)⟩

/-- C9 counterexample: the token `"r1"` is present and expired at
`now = 100`, and the lookup with `expectedType = access` fails — yet the
record is NOT deleted, because `ValidateToken` returns on the kind
mismatch before ever reaching the expiry check. -/
theorem validateToken_mismatch_keeps_expired :
    (c9Store.validateToken "r1" .access 100).fst = none ∧
    (100 : Int) > 10 ∧
    (c9Store.validateToken "r1" .access 100).snd.tokens "r1"
      = some ⟨"r1", .refresh, "client", 10, 0, ""⟩ := by
  refine ⟨rfl, by decide, rfl⟩

/-- C9 amended: an expired record is deleted as a side effect of a failed
lookup only when the record's kind matches `expectedType`; on a kind
mismatch the lookup fails but the store is returned unchanged. -/
theorem validateToken_expired_delete (s : TokenStore) (tok : String)
    (info : TokenInfo) (now : Int) (expected : TokenType)
    (h : s.tokens tok = some info) :
    (info.type = expected → now > info.expiresAt →
      (s.validateToken tok expected now).fst = none ∧
      (s.validateToken tok expected now).snd.tokens tok = none) ∧
    (info.type ≠ expected → s.validateToken tok expected now = (none, s)) := by
  constructor
  · intro hk hexp
    simp [TokenStore.validateToken, h, hk, hexp, mapDelete]
  · intro hk
    simp [TokenStore.validateToken, h, hk]

/-- C9 amended witness: the expired refresh token of `c9Store` looked up
with the matching kind at `now = 100` fails and is deleted; looked up with
the mismatched kind the store is unchanged. -/
theorem validateToken_expired_delete_witness :
    ((c9Store.validateToken "r1" .refresh 100).fst = none ∧
      (c9Store.validateToken "r1" .refresh 100).snd.tokens "r1" = none) ∧
    c9Store.validateToken "r1" .access 100 = (none, c9Store) := by
  have h := validateToken_expired_delete c9Store "r1"
    ⟨"r1", .refresh, "client", 10, 0, ""⟩ 100 .refresh (by decide)
  have h2 := validateToken_expired_delete c9Store "r1"
    ⟨"r1", .refresh, "client", 10, 0, ""⟩ 100 .access (by decide)
  exact ⟨h.1 (by decide) (by decide), h2.2 (by decide)⟩

/-- C2: authorization codes are single-use.  The first `get` after `store`
(before expiry, on a not-yet-used code) returns the record marked used and
stores it back marked used; every subsequent `get` of the same code, at
any time, returns `none`; and a `get` on a missing, used, or expired code
returns `none` with the store unchanged. -/
theorem authCodeStore_single_use (s : AuthCodeStore) (ac : AuthCode)
    (now now' : Int) :
    (ac.used = false → now < ac.expiresAt →
      ((s.store ac).get ac.code now).fst = some { ac with used := true } ∧
      ((s.store ac).get ac.code now).snd.codes ac.code
        = some { ac with used := true }) ∧
    (ac.used = false → now < ac.expiresAt →
      (((s.store ac).get ac.code now).snd.get ac.code now').fst = none) ∧
    (∀ c, s.codes c = none → s.get c now = (none, s)) ∧
    (∀ c ac', s.codes c = some ac' → ac'.used = true →
      s.get c now = (none, s)) ∧
    (∀ c ac', s.codes c = some ac' → now > ac'.expiresAt →
      s.get c now = (none, s)) := by
  refine ⟨?_, ?_, ?_, ?_, ?_⟩
  · intro hu hexp
    have hne : ¬ now > ac.expiresAt := by omega
    simp [AuthCodeStore.get, AuthCodeStore.store, mapInsert, hu, hne]
  · intro hu hexp
    have hne : ¬ now > ac.expiresAt := by omega
    simp [AuthCodeStore.get, AuthCodeStore.store, mapInsert, hu, hne]
  · intro c hc
    simp [AuthCodeStore.get, hc]
  · intro c ac' hc hu
    simp [AuthCodeStore.get, hc, hu]
  · intro c ac' hc hexp
    simp [AuthCodeStore.get, hc, hexp]

/-- C2 witness: storing a concrete code in the empty store, the first
`get` succeeds and marks it used, the second returns `none`, and a `get`
on a missing code leaves the store unchanged. -/
theorem authCodeStore_single_use_witness :
    (((⟨fun _ => none⟩ : AuthCodeStore).store
        ⟨"c", "cl", "https://cb", "ch", "S256", 300, false⟩).get "c" 0).fst
      = some ⟨"c", "cl", "https://cb", "ch", "S256", 300, true⟩ ∧
    ((((⟨fun _ => none⟩ : AuthCodeStore).store
        ⟨"c", "cl", "https://cb", "ch", "S256", 300, false⟩).get "c" 0).snd.get
        "c" 1).fst = none ∧
    (⟨fun _ => none⟩ : AuthCodeStore).get "missing" 0
      = (none, (⟨fun _ => none⟩ : AuthCodeStore)) := by
  have h := authCodeStore_single_use (⟨fun _ => none⟩ : AuthCodeStore)
    ⟨"c", "cl", "https://cb", "ch", "S256", 300, false⟩ 0 1
  exact ⟨(h.1 rfl (by decide)).1, h.2.1 rfl (by decide),
    h.2.2.1 "missing" rfl⟩

/-- C3 counterexample: at the instant `now = expiresAt` both lookups
still succeed, so "absent iff now ≥ expiresAt" is false — the code uses
the strict `time.Now().After(expiresAt)`, which keeps a record valid at
the exact expiry instant. -/
theorem expiry_boundary_counterexample :
    (c3TokenStore.validateToken "t1" .access 100).fst
      = some ⟨"t1", .access, "client", 100, 0, "r"⟩ ∧
    (c3CodeStore.get "c1" 100).fst
      = some ⟨"c1", "client", "https://cb", "ch", "S256", 100, true⟩ := by
  exact ⟨rfl, rfl⟩

/-- C3 amended: a stored record is treated as absent iff `now > expiresAt`
(equivalently, valid iff `now ≤ expiresAt`), for token lookups of the
matching kind and for fresh authorization codes alike; and the result of a
lookup is unchanged by a background sweep tick run at the same instant. -/
theorem expiry_correctness (s : TokenStore) (acs : AuthCodeStore)
    (tok c : String) (info : TokenInfo) (ac : AuthCode) (now : Int) :
    (s.tokens tok = some info →
      ((s.validateToken tok info.type now).fst = none ↔ now > info.expiresAt)) ∧
    (acs.codes c = some ac → ac.used = false →
      ((acs.get c now).fst = none ↔ now > ac.expiresAt)) ∧
    ((s.cleanupExpiredStep now).validateToken tok info.type now).fst
      = (s.validateToken tok info.type now).fst ∧
    ((acs.cleanupExpiredStep now).get c now).fst = (acs.get c now).fst := by
  refine ⟨?_, ?_, ?_, ?_⟩
  · intro h
    by_cases hx : now > info.expiresAt <;>
      simp [TokenStore.validateToken, h, hx]
  · intro h hu
    by_cases hx : now > ac.expiresAt <;>
      simp [AuthCodeStore.get, h, hu, hx]
  · cases hsm : s.tokens tok with
    | none => simp [TokenStore.validateToken, TokenStore.cleanupExpiredStep, hsm]
    | some i =>
      by_cases hx : now > i.expiresAt <;>
        by_cases hk : i.type = info.type <;>
          simp [TokenStore.validateToken, TokenStore.cleanupExpiredStep, hsm,
            hx, hk]
  · cases hsm : acs.codes c with
    | none => simp [AuthCodeStore.get, AuthCodeStore.cleanupExpiredStep, hsm]
    | some a =>
      by_cases hx : now > a.expiresAt <;>
        by_cases hu : a.used <;>
          simp [AuthCodeStore.get, AuthCodeStore.cleanupExpiredStep, hsm, hx,
            hu]

/-- C3 amended witness: one instant past expiry (`now = 101 > 100`) both
lookups are absent, and a sweep tick does not change either lookup. -/
theorem expiry_correctness_witness :
    (c3TokenStore.validateToken "t1" .access 101).fst = none ∧
    (c3CodeStore.get "c1" 101).fst = none ∧
    ((c3TokenStore.cleanupExpiredStep 101).validateToken "t1" .access 101).fst
      = (c3TokenStore.validateToken "t1" .access 101).fst ∧
    ((c3CodeStore.cleanupExpiredStep 101).get "c1" 101).fst
      = (c3CodeStore.get "c1" 101).fst := by
  have h := expiry_correctness c3TokenStore c3CodeStore "t1" "c1"
    ⟨"t1", .access, "client", 100, 0, "r"⟩
    ⟨"c1", "client", "https://cb", "ch", "S256", 100, false⟩ 101
  exact ⟨(h.1 (by decide)).mpr (by decide),
    (h.2.1 (by decide) (by decide)).mpr (by decide), h.2.2.1, h.2.2.2⟩

/-- C1: evaluation of the refresh grant at the failing input.  The
exchange of `"R"` succeeds, and afterwards the old refresh token is
absent — but the access token `"A"` with `linkedRefreshID = "R"` still
validates, because `handleRefreshTokenGrant` calls the plain
`RevokeToken` instead of `RevokeRefreshTokenAndAccessTokens`: the cascade
required by the claim (and provided, unused, by tokens.go:145-158) never
runs. -/
theorem refreshGrant_skips_cascade :
    (handleRefreshTokenGrant c1Store "R" "" 0 "R2" "A2").fst
      = .success "A2" "R2" 3600 ∧
    ((handleRefreshTokenGrant c1Store "R" "" 0 "R2" "A2").snd.validateToken
      "R" .refresh 0).fst = none ∧
    ((handleRefreshTokenGrant c1Store "R" "" 0 "R2" "A2").snd.validateToken
      "A" .access 0).fst = some ⟨"A", .access, "c", 500, 0, "R"⟩ := by
  exact ⟨rfl, rfl, rfl⟩

/-- C7: for every `POST /authorize` form whose action is not `deny` and
whose PIN passes the check (or with no PIN configured), an authorization
code is generated, stored bound to the submitted `client_id` and
`redirect_uri`, and the response redirects to that `redirect_uri` with the
code — even when `ValidateRedirectURI(client_id, redirect_uri)` is false
for every client store, since the POST path never consults it. -/
theorem authorizePost_ignores_redirect_validation
    (cs : ClientStore) (authorizePin pin clientID redirectURI state
      codeChallenge codeChallengeMethod action code : String)
    (authCodes : AuthCodeStore) (now : Int)
    (hdeny : action ≠ "deny")
    (hpin : authorizePin = "" ∨ pin = authorizePin)
    (hbad : cs.validateRedirectURI clientID redirectURI = false) :
    (authorizePost authorizePin authCodes pin clientID redirectURI state
        codeChallenge codeChallengeMethod action code now).fst
      = .redirectTo (redirectURI ++ "?code=" ++ code ++
          (if state ≠ "" then "&state=" ++ state else "")) ∧
    (authorizePost authorizePin authCodes pin clientID redirectURI state
        codeChallenge codeChallengeMethod action code now).snd.codes code
      = some ⟨code, clientID, redirectURI, codeChallenge,
          codeChallengeMethod, now + 300, false⟩ := by
  have hp : ¬ (authorizePin ≠ "" ∧ pin ≠ authorizePin) := by
    rcases hpin with h | h <;> simp [h]
  simp [authorizePost, hdeny, hp, issueAuthorizationCode,
    AuthCodeStore.store, mapInsert]

/-- C7 witness: with no PIN configured, an approve action for a client
and redirect URI that the (empty) client store does not validate still
issues and stores a code and redirects to that URI. -/
theorem authorizePost_ignores_redirect_validation_witness :
    (authorizePost "" (⟨fun _ => none⟩ : AuthCodeStore) "" "evil-client"
        "https://evil.example/cb" "xyz" "ch" "S256" "approve" "CODE" 0).fst
      = .redirectTo "https://evil.example/cb?code=CODE&state=xyz" ∧
    (authorizePost "" (⟨fun _ => none⟩ : AuthCodeStore) "" "evil-client"
        "https://evil.example/cb" "xyz" "ch" "S256" "approve" "CODE"
        0).snd.codes "CODE"
      = some ⟨"CODE", "evil-client", "https://evil.example/cb", "ch",
          "S256", 300, false⟩ := by
  have h := authorizePost_ignores_redirect_validation
    (⟨fun _ => none⟩ : ClientStore) "" "" "evil-client"
    "https://evil.example/cb" "xyz" "ch" "S256" "approve" "CODE"
    (⟨fun _ => none⟩ : AuthCodeStore) 0
    (by decide) (.inl rfl) (by rfl)
  exact ⟨by rw [h.1]; rfl, h.2⟩

/-- C6: persistence round-trip.  Saving at `tSave` and loading into a
fresh token store and freshly seeded client store reconstructs exactly
the tokens of the original store that are non-expired at load time
(for any load time at or after the save); a token already expired at save
time is never reloaded, at any load time whatsoever; the seeded
`claude-ai` client is always the fresh seed; and every other client ID
maps to exactly what the original client store held. -/
theorem persistence_roundtrip (ts : TokenStore) (cs : ClientStore)
    (tSave tLoad tSeed : Int) (aTTL rTTL : Int) :
    ((tSave ≤ tLoad) → ∀ tok,
      (persistenceLoad (persistenceSave ts cs tSave)
          ⟨fun _ => none, aTTL, rTTL⟩ (newClientStore tSeed) tLoad).fst.tokens
          tok
        = match ts.tokens tok with
          | some info => if tLoad < info.expiresAt then some info else none
          | none => none) ∧
    (∀ tLoad' tok info, ts.tokens tok = some info → tSave ≥ info.expiresAt →
      (persistenceLoad (persistenceSave ts cs tSave)
          ⟨fun _ => none, aTTL, rTTL⟩ (newClientStore tSeed)
          tLoad').fst.tokens tok = none) ∧
    ((persistenceLoad (persistenceSave ts cs tSave)
        ⟨fun _ => none, aTTL, rTTL⟩ (newClientStore tSeed)
        tLoad).snd.clients "claude-ai" = some (defaultClient tSeed)) ∧
    (∀ id, id ≠ "claude-ai" →
      (persistenceLoad (persistenceSave ts cs tSave)
          ⟨fun _ => none, aTTL, rTTL⟩ (newClientStore tSeed)
          tLoad).snd.clients id = cs.clients id) := by
  refine ⟨?_, ?_, ?_, ?_⟩
  · intro hle tok
    simp only [persistenceLoad, persistenceSave]
    cases h : ts.tokens tok with
    | none => simp
    | some info =>
      by_cases hs : tSave < info.expiresAt
      · by_cases hl : tLoad < info.expiresAt <;> simp [hs, hl]
      · have hl : ¬ tLoad < info.expiresAt := by omega
        simp [hs, hl]
  · intro tLoad' tok info h hexp
    have hs : ¬ tSave < info.expiresAt := by omega
    simp [persistenceLoad, persistenceSave, h, hs]
  · simp [persistenceLoad, newClientStore, ClientStore.register, mapInsert,
      defaultClient]
  · intro id hid
    simp [persistenceLoad, newClientStore, ClientStore.register, mapInsert,
      persistenceSave, hid, defaultClient]
    cases h : cs.clients id <;> simp

/-- C6 witness: a store with a live token (expires 100) and an expired
token (expired at 5), saved at 10 and loaded at 20 into fresh stores:
the live token survives, the expired one is gone even when loading at
time 0, the seed is fresh, and a persisted dynamic client comes back. -/
theorem persistence_roundtrip_witness :
    (persistenceLoad (persistenceSave
        ⟨mapInsert (mapInsert (fun _ => none)
            "live" ⟨"live", .access, "c", 100, 0, "r"⟩)
            "dead" ⟨"dead", .access, "c", 5, 0, "r"⟩, 3600, 604800⟩
        ⟨mapInsert (fun _ => none) "dyn"
          ⟨"dyn", "Dyn", ["https://app.example/cb"], 1⟩⟩ 10)
        ⟨fun _ => none, 3600, 604800⟩ (newClientStore 20) 20).fst.tokens
        "live" = some ⟨"live", .access, "c", 100, 0, "r"⟩ ∧
    (persistenceLoad (persistenceSave
        ⟨mapInsert (mapInsert (fun _ => none)
            "live" ⟨"live", .access, "c", 100, 0, "r"⟩)
            "dead" ⟨"dead", .access, "c", 5, 0, "r"⟩, 3600, 604800⟩
        ⟨mapInsert (fun _ => none) "dyn"
          ⟨"dyn", "Dyn", ["https://app.example/cb"], 1⟩⟩ 10)
        ⟨fun _ => none, 3600, 604800⟩ (newClientStore 20) 0).fst.tokens
        "dead" = none ∧
    (persistenceLoad (persistenceSave
        ⟨mapInsert (mapInsert (fun _ => none)
            "live" ⟨"live", .access, "c", 100, 0, "r"⟩)
            "dead" ⟨"dead", .access, "c", 5, 0, "r"⟩, 3600, 604800⟩
        ⟨mapInsert (fun _ => none) "dyn"
          ⟨"dyn", "Dyn", ["https://app.example/cb"], 1⟩⟩ 10)
        ⟨fun _ => none, 3600, 604800⟩ (newClientStore 20) 20).snd.clients
        "claude-ai" = some (defaultClient 20) ∧
    (persistenceLoad (persistenceSave
        ⟨mapInsert (mapInsert (fun _ => none)
            "live" ⟨"live", .access, "c", 100, 0, "r"⟩)
            "dead" ⟨"dead", .access, "c", 5, 0, "r"⟩, 3600, 604800⟩
        ⟨mapInsert (fun _ => none) "dyn"
          ⟨"dyn", "Dyn", ["https://app.example/cb"], 1⟩⟩ 10)
        ⟨fun _ => none, 3600, 604800⟩ (newClientStore 20) 20).snd.clients
        "dyn" = some ⟨"dyn", "Dyn", ["https://app.example/cb"], 1⟩ := by
  have h := persistence_roundtrip
    ⟨mapInsert (mapInsert (fun _ => none)
        "live" ⟨"live", .access, "c", 100, 0, "r"⟩)
        "dead" ⟨"dead", .access, "c", 5, 0, "r"⟩, 3600, 604800⟩
    ⟨mapInsert (fun _ => none) "dyn"
      ⟨"dyn", "Dyn", ["https://app.example/cb"], 1⟩⟩
    10 20 20 3600 604800
  refine ⟨?_, ?_, h.2.2.1, ?_⟩
  · have := h.1 (by decide) "live"
    simpa using this
  · exact h.2.1 0 "dead" ⟨"dead", .access, "c", 5, 0, "r"⟩ (by decide)
      (by decide)
  · have := h.2.2.2 "dyn" (by decide)
    simpa using this

/-- C8 counterexample: ten timestamps exactly `window` old (age = 60 at
`now = 60`, `window = 60`).  Under the claim's wording ("prunes
timestamps older than now - window") none is pruned, ten remain, and the
call must be refused; the code's strict `t.After(cutoff)` prunes all ten
and admits the call. -/
theorem rateLimiter_boundary_counterexample :
    ((⟨fun i => if i = "a" then List.replicate 10 0 else [], 10, 60⟩ :
        RateLimiter).allow "a" 60).fst = true ∧
    ((⟨fun i => if i = "a" then List.replicate 10 0 else [], 10, 60⟩ :
        RateLimiter).allowClaimed "a" 60).fst = false := by
  exact ⟨by decide, by decide⟩

/-- Helper for C8: while the per-address list holds `prev`, every element
of `prev` survives every upcoming call's pruning, the upcoming call times
lie pairwise within one window of each other, and total capacity is not
exceeded, every call is admitted and the final list is `prev ++ ts`. -/
theorem runAllow_within_window (ip : String) (n : Nat) (w : Int)
    (ts : List Int) : ∀ (prev : List Int) (rl : RateLimiter),
    rl.requests ip = prev → rl.limit = n → rl.window = w →
    (∀ x ∈ prev, ∀ u ∈ ts, x > u - w) →
    (∀ a ∈ ts, ∀ b ∈ ts, b - a < w) →
    prev.length + ts.length ≤ n →
    (runAllow rl ip ts).fst = List.replicate ts.length true ∧
    (runAllow rl ip ts).snd.requests ip = prev ++ ts ∧
    (runAllow rl ip ts).snd.limit = n ∧
    (runAllow rl ip ts).snd.window = w := by
  induction ts with
  | nil =>
    intro prev rl hreq hlim hwin _ _ _
    simp [runAllow, hreq, hlim, hwin]
  | cons u rest ih =>
    intro prev rl hreq hlim hwin hprev hts hcap
    have hkeep : prev.filter (fun t => t > u - w) = prev := by
      apply List.filter_eq_self.mpr
      intro x hx
      simpa using hprev x hx u (by simp)
    have hlt : prev.length < n := by
      have := hcap
      simp [List.length_cons] at this
      omega
    have hallow : rl.allow ip u =
        (true, { rl with requests := fun i =>
          if i = ip then prev ++ [u] else rl.requests i }) := by
      simp only [RateLimiter.allow, hreq, hlim, hwin, hkeep]
      rw [if_neg (by omega)]
    have hprev' : ∀ y ∈ prev ++ [u], ∀ v ∈ rest, y > v - w := by
      intro y hy v hv
      rcases List.mem_append.mp hy with h | h
      · exact hprev y h v (by simp [hv])
      · have hyu : y = u := by simpa using h
        have := hts u (by simp) v (by simp [hv])
        omega
    have hstep := ih (prev ++ [u])
      ({ rl with requests := fun i =>
          if i = ip then prev ++ [u] else rl.requests i })
      (by simp) (by simp [hlim]) (by simp [hwin])
      hprev'
      (by
        intro a ha b hb
        exact hts a (by simp [ha]) b (by simp [hb]))
      (by simp at hcap ⊢; omega)
    refine ⟨?_, ?_, ?_, ?_⟩
    · simp only [runAllow, hallow]
      simp [hstep.1, List.replicate_succ]
    · simp only [runAllow, hallow]
      simp [hstep.2.1]
    · simp only [runAllow, hallow]
      simp [hstep.2.2.1]
    · simp only [runAllow, hallow]
      simp [hstep.2.2.2]

/-- C8 amended: with `limit = 10`, `window = 60` and a fresh limiter, any
ten calls at times lying pairwise within one window are all admitted; an
eleventh call still within one window of all of them is refused and
records nothing; and once a full window has elapsed since each admitted
timestamp (`now ≥ t + 60`, inclusive — the code prunes timestamps exactly
one window old, not only those strictly older), a further call is
admitted again. -/
theorem rateLimiter_window_behavior (ts : List Int) (u v : Int)
    (hlen : ts.length = 10)
    (hts : ∀ a ∈ ts, ∀ b ∈ ts, b - a < 60)
    (hu : ∀ a ∈ ts, a > u - 60)
    (hv : ∀ a ∈ ts, v ≥ a + 60) :
    (runAllow ⟨fun _ => [], 10, 60⟩ "a" ts).fst
      = List.replicate 10 true ∧
    (((runAllow ⟨fun _ => [], 10, 60⟩ "a" ts).snd.allow "a" u).fst
      = false ∧
     ((runAllow ⟨fun _ => [], 10, 60⟩ "a" ts).snd.allow "a" u).snd.requests
       "a" = ts) ∧
    ((((runAllow ⟨fun _ => [], 10, 60⟩ "a" ts).snd.allow "a" u).snd.allow
      "a" v).fst = true) := by
  have hrun := runAllow_within_window "a" 10 60 ts []
    ⟨fun _ => [], 10, 60⟩ rfl rfl rfl (by simp) hts (by simp [hlen])
  have hreq : (runAllow ⟨fun _ => [], 10, 60⟩ "a" ts).snd.requests "a"
      = ts := by simpa using hrun.2.1
  have hkeepu : ts.filter (fun t => t > u - 60) = ts := by
    apply List.filter_eq_self.mpr
    intro x hx
    simpa using hu x hx
  have hfail : ((runAllow ⟨fun _ => [], 10, 60⟩ "a" ts).snd.allow "a" u)
      = (false, { (runAllow ⟨fun _ => [], 10, 60⟩ "a" ts).snd with
          requests := fun i =>
            if i = "a" then ts
            else (runAllow ⟨fun _ => [], 10, 60⟩ "a" ts).snd.requests i }) := by
    simp only [RateLimiter.allow, hreq, hrun.2.2.1, hrun.2.2.2, hkeepu]
    rw [if_pos (by omega)]
  refine ⟨by simpa [hlen] using hrun.1, ⟨?_, ?_⟩, ?_⟩
  · rw [hfail]
  · rw [hfail]
    simp
  · have hdrop : List.filter (fun t => decide (v - 60 < t)) ts = [] := by
      apply List.filter_eq_nil_iff.mpr
      intro x hx
      have := hv x hx
      simp only [decide_eq_true_eq]
      omega
    rw [hfail]
    simp [RateLimiter.allow, hrun.2.2.1, hrun.2.2.2, hdrop]

/-- C8 amended witness: calls at times 0..9 are all admitted, the
eleventh call at time 10 is refused, and a call at time 69 (a full window
after the latest admitted timestamp 9) is admitted again. -/
theorem rateLimiter_window_behavior_witness :
    (runAllow ⟨fun _ => [], 10, 60⟩ "a" [0, 1, 2, 3, 4, 5, 6, 7, 8, 9]).fst
      = List.replicate 10 true ∧
    ((runAllow ⟨fun _ => [], 10, 60⟩ "a"
        [0, 1, 2, 3, 4, 5, 6, 7, 8, 9]).snd.allow "a" 10).fst = false ∧
    ((((runAllow ⟨fun _ => [], 10, 60⟩ "a"
        [0, 1, 2, 3, 4, 5, 6, 7, 8, 9]).snd.allow "a" 10).snd.allow
        "a" 69).fst = true) := by
  have h := rateLimiter_window_behavior [0, 1, 2, 3, 4, 5, 6, 7, 8, 9]
    10 69 (by decide)
    (by intro a ha b hb; fin_cases ha <;> fin_cases hb <;> decide)
    (by intro a ha; fin_cases ha <;> decide)
    (by intro a ha; fin_cases ha <;> decide)
  exact ⟨h.1, h.2.1.1, h.2.2⟩

/-- Helper: `bearerSplit` succeeds exactly on `Bearer `-prefixed headers. -/
theorem bearerSplit_some_iff (h r : List Char) :
    bearerSplit h = some r ↔ h = bearerHeader r := by
  constructor
  · intro hs
    unfold bearerSplit at hs
    split at hs
    · cases hs
      rfl
    · cases hs
  · intro he
    subst he
    rfl

/-- Helper: `multiValidate` only depends on the set of validators, not
their order. -/
theorem multiValidate_perm (vs vs' : List (List Char → Bool))
    (hp : vs.Perm vs') (t : List Char) :
    multiValidate vs t = multiValidate vs' t := by
  unfold multiValidate
  cases h1 : vs.any (fun v => v t) <;>
    cases h2 : vs'.any (fun v => v t) <;> try rfl
  · rw [List.any_eq_false] at h1
    rw [List.any_eq_true] at h2
    obtain ⟨f, hf, hft⟩ := h2
    exact absurd hft (by simpa using h1 f (hp.mem_iff.mpr hf))
  · rw [List.any_eq_false] at h2
    rw [List.any_eq_true] at h1
    obtain ⟨f, hf, hft⟩ := h1
    exact absurd hft (by simpa using h2 f (hp.mem_iff.mp hf))

/-- Both possible 401 challenges begin with `Bearer`. -/
theorem writeUnauthorized_beginsWithBearer (url desc : List Char) :
    beginsWithBearer (writeUnauthorized url desc) := by
  unfold writeUnauthorized beginsWithBearer
  by_cases hu : url = [] <;> by_cases hd : desc = [] <;>
    simp only [hu, hd, ne_eq, not_true_eq_false, not_false_eq_true,
      if_true, if_false, ite_true, ite_false] <;>
    exact ⟨_, rfl⟩

/-- C10: bearer middleware OR semantics.  A request is passed on exactly
when its `Authorization` header is `Bearer <token>` and some configured
validator accepts `<token>`; otherwise the response is a 401 whose
`WWW-Authenticate` value begins with `Bearer`; and the result is
unchanged under any permutation of the validator list. -/
theorem middleware_or_semantics (vs vs' : List (List Char → Bool))
    (url authHeader : List Char) (hp : vs.Perm vs') :
    (∀ t, middleware vs url authHeader = .ok t ↔
      (authHeader = bearerHeader t ∧ multiValidate vs t = true)) ∧
    ((∀ t, middleware vs url authHeader ≠ .ok t) →
      ∃ w, middleware vs url authHeader = .unauthorized w ∧
        beginsWithBearer w) ∧
    middleware vs url authHeader = middleware vs' url authHeader := by
  refine ⟨?_, ?_, ?_⟩
  · intro t
    constructor
    · intro hok
      unfold middleware at hok
      cases hsp : bearerSplit authHeader with
      | none =>
        simp only [hsp] at hok
        exact absurd hok (by simp)
      | some tok =>
        simp only [hsp] at hok
        by_cases hv : multiValidate vs tok = true
        · rw [if_pos hv] at hok
          cases hok
          exact ⟨(bearerSplit_some_iff _ _).mp hsp, hv⟩
        · rw [if_neg hv] at hok
          exact absurd hok (by simp)
    · rintro ⟨hh, hv⟩
      subst hh
      unfold middleware bearerHeader
      rw [show bearerSplit ('B' :: 'e' :: 'a' :: 'r' :: 'e' :: 'r' :: ' '
        :: t) = some t from rfl]
      dsimp only
      rw [if_pos hv]
  · intro hno
    unfold middleware
    cases hsp : bearerSplit authHeader with
    | none =>
      simp only [hsp]
      exact ⟨_, rfl, writeUnauthorized_beginsWithBearer _ _⟩
    | some tok =>
      simp only [hsp]
      by_cases hv : multiValidate vs tok = true
      · exact absurd
          (by unfold middleware; simp only [hsp]; rw [if_pos hv])
          (hno tok)
      · rw [if_neg hv]
        exact ⟨_, rfl, writeUnauthorized_beginsWithBearer _ _⟩
  · unfold middleware
    cases hsp : bearerSplit authHeader with
    | none => simp only [hsp]
    | some tok =>
      simp only [hsp]
      rw [multiValidate_perm vs vs' hp tok]

/-- C10 witness: with the validator list `[accept "x", reject all]` and
its reversal, the header `Bearer x` is passed on, and the claim's iff,
401 shape and order independence hold at this concrete input. -/
theorem middleware_or_semantics_witness :
    (middleware [fun t => t == ['x'], fun _ => false] []
        (bearerHeader ['x']) = .ok ['x'] ↔
      (bearerHeader ['x'] = bearerHeader ['x'] ∧
        multiValidate [fun t => t == ['x'], fun _ => false] ['x'] = true)) ∧
    middleware [fun t => t == ['x'], fun _ => false] []
        (bearerHeader ['x'])
      = middleware [fun _ => false, fun t => t == ['x']] []
        (bearerHeader ['x']) := by
  have h := middleware_or_semantics
    [fun t => t == ['x'], fun _ => false]
    [fun _ => false, fun t => t == ['x']]
    [] (bearerHeader ['x'])
    (List.Perm.swap _ _ [])
  exact ⟨h.1 ['x'], h.2.2⟩

/-- FIPS 180-4 test vector: the SHA-256 digest of the empty message,
confirming the embedding against Go's `crypto/sha256`. -/
theorem sha256_empty_vector :
    sha256 [] = [227, 176, 196, 66, 152, 252, 28, 20, 154, 251,
      244, 200, 153, 111, 185, 36, 39, 174, 65, 228, 100, 155,
      147, 76, 164, 149, 153, 27, 120, 82, 184, 85] := by
  decide

/-- RFC 7636 appendix B test vector: verifier, SHA-256, and base64url
together produce the published challenge, confirming the embedding
against Go's `crypto/sha256` plus `base64.RawURLEncoding`. -/
theorem pkce_rfc7636_vector :
    b64urlEncode
        (sha256 (strBytes "dBjftJeZ4CVP-mB92K27uhbUJU1p1r_wW1gFWFOEjXk"))
      = strBytes "E9Melhoa2OwvFrEMTJguCHaoeK1t8URWbuGJSstw-cM" := by
  decide

/-- Word-wise state addition always lands below 2^32. -/
theorem addState_bounded (x y : Sha256State) : stBounded (addState x y) := by
  refine ⟨?_, ?_, ?_, ?_, ?_, ?_, ?_, ?_⟩ <;> exact Nat.mod_lt _ (by decide)

/-- Block compression always lands below 2^32 (it ends in `addState`). -/
theorem sha256Compress_bounded (st : Sha256State) (block : List Nat) :
    stBounded (sha256Compress st block) := by
  unfold sha256Compress
  exact addState_bounded _ _

/-- Folding compression over any block list preserves boundedness. -/
theorem foldl_compress_bounded (blocks : List (List Nat))
    (st : Sha256State) (h : stBounded st) :
    stBounded (blocks.foldl sha256Compress st) := by
  induction blocks generalizing st with
  | nil => exact h
  | cons b bs ih =>
    rw [List.foldl_cons]
    exact ih _ (sha256Compress_bounded st b)

/-- The initial hash value is bounded. -/
theorem sha256InitH_bounded : stBounded sha256InitH := by
  unfold stBounded sha256InitH
  refine ⟨?_, ?_, ?_, ?_, ?_, ?_, ?_, ?_⟩ <;> decide

/-- Every SHA-256 final state is word-wise below 2^32. -/
theorem sha256Words_bounded (msg : List Nat) : stBounded (sha256Words msg) := by
  unfold sha256Words
  exact foldl_compress_bounded _ _ sha256InitH_bounded

/-- Messages with the same packed digest have the same final state. -/
theorem digestFin_eq_words (x y : List Nat) (h : digestFin x = digestFin y) :
    sha256Words x = sha256Words y := by
  have hbx := sha256Words_bounded x
  have hby := sha256Words_bounded y
  unfold digestFin at h
  have ha := congrArg (fun p => p.1.val) h
  have hb := congrArg (fun p => p.2.1.val) h
  have hc := congrArg (fun p => p.2.2.1.val) h
  have hd := congrArg (fun p => p.2.2.2.1.val) h
  have he := congrArg (fun p => p.2.2.2.2.1.val) h
  have hf := congrArg (fun p => p.2.2.2.2.2.1.val) h
  have hg := congrArg (fun p => p.2.2.2.2.2.2.1.val) h
  have hh := congrArg (fun p => p.2.2.2.2.2.2.2.val) h
  simp only at ha hb hc hd he hf hg hh
  rw [Nat.mod_eq_of_lt hbx.1, Nat.mod_eq_of_lt hby.1] at ha
  rw [Nat.mod_eq_of_lt hbx.2.1, Nat.mod_eq_of_lt hby.2.1] at hb
  rw [Nat.mod_eq_of_lt hbx.2.2.1, Nat.mod_eq_of_lt hby.2.2.1] at hc
  rw [Nat.mod_eq_of_lt hbx.2.2.2.1, Nat.mod_eq_of_lt hby.2.2.2.1] at hd
  rw [Nat.mod_eq_of_lt hbx.2.2.2.2.1, Nat.mod_eq_of_lt hby.2.2.2.2.1] at he
  rw [Nat.mod_eq_of_lt hbx.2.2.2.2.2.1,
    Nat.mod_eq_of_lt hby.2.2.2.2.2.1] at hf
  rw [Nat.mod_eq_of_lt hbx.2.2.2.2.2.2.1,
    Nat.mod_eq_of_lt hby.2.2.2.2.2.2.1] at hg
  rw [Nat.mod_eq_of_lt hbx.2.2.2.2.2.2.2,
    Nat.mod_eq_of_lt hby.2.2.2.2.2.2.2] at hh
  exact Sha256State.ext ha hb hc hd he hf hg hh

/-- C4 counterexample: the second half of the claim — "for every verifier
V' different from V, validatePKCE(V', challenge(V)) returns false" — is
false: SHA-256 maps infinitely many byte strings into a finite digest
space, so by the pigeonhole principle two distinct verifiers share a
digest and the second validates against the first's challenge.  (No such
collision is computationally known; the witness is nonconstructive.) -/
theorem validatePKCE_distinct_not_always_false :
    ¬ (∀ (v w : List Nat), (∀ x ∈ v, x < 256) → (∀ x ∈ w, x < 256) →
        w ≠ v → validatePKCE w (b64urlEncode (sha256 v)) = false) := by
  intro hclaim
  obtain ⟨n, m, hnm, hfe⟩ := Finite.exists_ne_map_eq_of_infinite
    (fun n : Nat => digestFin (List.replicate n 0))
  have hwords := digestFin_eq_words _ _ hfe
  have hsha : sha256 (List.replicate n 0) = sha256 (List.replicate m 0) := by
    unfold sha256
    rw [hwords]
  have hne : List.replicate m 0 ≠ List.replicate n 0 := by
    intro h
    have hlen := congrArg List.length h
    simp only [List.length_replicate] at hlen
    exact hnm hlen.symm
  have hb : ∀ k : Nat, ∀ x ∈ List.replicate k 0, x < 256 := by
    intro k x hx
    simp [List.eq_of_mem_replicate hx]
  have := hclaim (List.replicate n 0) (List.replicate m 0) (hb n) (hb m) hne
  rw [validatePKCE, hsha] at this
  simp at this

/-- A SHA-256 digest is 32 bytes long. -/
theorem sha256_length (msg : List Nat) : (sha256 msg).length = 32 := by
  simp [sha256, digestBytes, wordBytes]

/-- Word bytes are bytes. -/
theorem wordBytes_lt (w : Nat) : ∀ x ∈ wordBytes w, x < 256 := by
  intro x hx
  simp only [wordBytes, List.mem_cons, List.not_mem_nil, or_false] at hx
  rcases hx with rfl | rfl | rfl | rfl <;> exact Nat.mod_lt _ (by decide)

/-- Digest entries are bytes. -/
theorem sha256_bytes_lt (msg : List Nat) : ∀ x ∈ sha256 msg, x < 256 := by
  intro x hx
  simp only [sha256, digestBytes, List.append_assoc, List.mem_append] at hx
  rcases hx with h | h | h | h | h | h | h | h <;> exact wordBytes_lt _ x h

/-- The base64url alphabet has 64 pairwise distinct bytes. -/
theorem b64Code_inj : ∀ a < 64, ∀ b < 64, b64Code a = b64Code b → a = b := by
  decide

/-- Base64url encoding is injective on byte lists of equal length. -/
theorem b64urlEncode_injOn : ∀ (l1 l2 : List Nat), l1.length = l2.length →
    (∀ x ∈ l1, x < 256) → (∀ x ∈ l2, x < 256) →
    b64urlEncode l1 = b64urlEncode l2 → l1 = l2
  | [], [], _, _, _, _ => rfl
  | [], _ :: _, hlen, _, _, _ => by
    simp only [List.length_nil, List.length_cons] at hlen
    omega
  | _ :: _, [], hlen, _, _, _ => by
    simp only [List.length_nil, List.length_cons] at hlen
    omega
  | [b0], [c0], _, h1, h2, henc => by
    have hb0 : b0 < 256 := h1 b0 (by simp)
    have hc0 : c0 < 256 := h2 c0 (by simp)
    simp only [b64urlEncode, List.cons.injEq, and_true] at henc
    have g1 := b64Code_inj _ (by omega) _ (by omega) henc.1
    have g2 := b64Code_inj _ (by omega) _ (by omega) henc.2
    have : b0 = c0 := by omega
    rw [this]
  | [b0], _ :: _ :: _, hlen, _, _, _ => by
    simp only [List.length_nil, List.length_cons] at hlen
    omega
  | _ :: _ :: _, [c0], hlen, _, _, _ => by
    simp only [List.length_nil, List.length_cons] at hlen
    omega
  | [b0, b1], [c0, c1], _, h1, h2, henc => by
    have hb0 : b0 < 256 := h1 b0 (by simp)
    have hb1 : b1 < 256 := h1 b1 (by simp)
    have hc0 : c0 < 256 := h2 c0 (by simp)
    have hc1 : c1 < 256 := h2 c1 (by simp)
    simp only [b64urlEncode, List.cons.injEq, and_true] at henc
    have g1 := b64Code_inj _ (by omega) _ (by omega) henc.1
    have g2 := b64Code_inj _ (by omega) _ (by omega) henc.2.1
    have g3 := b64Code_inj _ (by omega) _ (by omega) henc.2.2
    have hb : b0 = c0 ∧ b1 = c1 := by omega
    rw [hb.1, hb.2]
  | [b0, b1], _ :: _ :: _ :: _, hlen, _, _, _ => by
    simp only [List.length_nil, List.length_cons] at hlen
    omega
  | _ :: _ :: _ :: _, [c0, c1], hlen, _, _, _ => by
    simp only [List.length_nil, List.length_cons] at hlen
    omega
  | b0 :: b1 :: b2 :: r1, c0 :: c1 :: c2 :: r2, hlen, h1, h2, henc => by
    have hb0 : b0 < 256 := h1 b0 (by simp)
    have hb1 : b1 < 256 := h1 b1 (by simp)
    have hb2 : b2 < 256 := h1 b2 (by simp)
    have hc0 : c0 < 256 := h2 c0 (by simp)
    have hc1 : c1 < 256 := h2 c1 (by simp)
    have hc2 : c2 < 256 := h2 c2 (by simp)
    simp only [b64urlEncode, List.cons.injEq] at henc
    obtain ⟨e1, e2, e3, e4, erest⟩ := henc
    have g1 := b64Code_inj _ (by omega) _ (by omega) e1
    have g2 := b64Code_inj _ (by omega) _ (by omega) e2
    have g3 := b64Code_inj _ (by omega) _ (by omega) e3
    have g4 := b64Code_inj _ (by omega) _ (by omega) e4
    have hrec := b64urlEncode_injOn r1 r2
      (by simp only [List.length_cons] at hlen; omega)
      (fun x hx => h1 x (by simp [hx]))
      (fun x hx => h2 x (by simp [hx]))
      erest
    have hb : b0 = c0 ∧ b1 = c1 ∧ b2 = c2 := by omega
    rw [hb.1, hb.2.1, hb.2.2, hrec]

/-- C4 amended: for every verifier V (as its byte sequence),
`validatePKCE(V, base64url(sha256(V)))` returns true; and a verifier V'
fails validation against V's challenge exactly when its SHA-256 digest
differs from V's — so distinct verifiers fail unless they collide under
SHA-256 (which, by `validatePKCE_distinct_not_always_false`, some
necessarily do, though none is computationally known). -/
theorem validatePKCE_roundtrip :
    (∀ v : List Nat, validatePKCE v (b64urlEncode (sha256 v)) = true) ∧
    (∀ v w : List Nat,
      validatePKCE w (b64urlEncode (sha256 v)) = false ↔
        sha256 w ≠ sha256 v) := by
  constructor
  · intro v
    simp [validatePKCE]
  · intro v w
    by_cases henc : b64urlEncode (sha256 w) = b64urlEncode (sha256 v)
    · have hsha := b64urlEncode_injOn _ _
        (by rw [sha256_length, sha256_length]) (sha256_bytes_lt w)
        (sha256_bytes_lt v) henc
      simp [validatePKCE, henc, hsha]
    · have hsha : sha256 w ≠ sha256 v := fun hw => henc (by rw [hw])
      simp [validatePKCE, henc, hsha]
